import Mathlib

/-!
Shallow embedding of `src/CopySvgTranslate/extraction/extractor.py` (function
`extract`, lines 13-153) together with the claim theorems.

Modelling conventions:
* Python strings are Lean `String`s; `str.strip`, `str.lower` and
  `str.isdigit` are modelled on their ASCII fragment (`pyStrip`, `pyLower`,
  `pyIsdigit`); the documents of interest use ASCII markup.
* A Python `dict` (insertion ordered, assignment keeps the position of an
  existing key and appends new keys) is an association list with the
  operations `dget?`, `dinsert`, `dsetdefault`, `dupdate`.
* Optional attributes / element text are `Option String`; Python truthiness
  of such a value (`if system_lang:`) is `truthy`.
* The uncaught `KeyError` that `translations["new"]["default_tspans_by_id"]`
  can raise (lines 64 and 121: the key is never initialised anywhere) is an
  `Except.error ()`; the top level turns it into `ExtractOutcome.raisedKeyError`.
* `switch_translations`, `default_texts` (line 89) and `processed_switches`
  feed only the log statement of lines 136-141 and never influence the
  returned dictionary; they are not modelled.  The local variables
  `default_tspans_by_id` (line 36) and `tspans_by_id` (line 48) are written
  but never read in the source and are likewise omitted.
-/

namespace SvgExtract

/-- Python whitespace for `str.strip` (ASCII fragment). -/
def pySpace (c : Char) : Bool :=
  c = ' ' || c = '\t' || c = '\n' || c = '\r' || c = '\x0b' || c = '\x0c'

/-- `str.strip()` on the ASCII fragment. -/
def pyStrip (s : String) : String :=
  ⟨((s.data.dropWhile pySpace).reverse.dropWhile pySpace).reverse⟩

/-- `str.lower()` on the ASCII fragment. -/
def pyLower (s : String) : String :=
  ⟨s.data.map Char.toLower⟩

/-- `str.isdigit()` restricted to ASCII digits (Python also accepts other
Unicode digit characters, which are outside this model). -/
def pyIsdigit (s : String) : Bool :=
  !s.data.isEmpty && s.data.all (fun c => '0' ≤ c && c ≤ '9')

/-- Python `s[-4:]`. -/
def last4 (s : String) : String :=
  ⟨s.data.drop (s.data.length - 4)⟩

/-- Python `s[:-4]`. -/
def dropLast4 (s : String) : String :=
  ⟨s.data.take (s.data.length - 4)⟩

/-- Python `s.split("-")[0]`. -/
def splitDashHead (s : String) : String :=
  ⟨s.data.takeWhile (fun c => c != '-')⟩

/-- Truthiness of an optional string attribute or text (`None` and `""` are
falsy). -/
def truthy : Option String → Bool
  | none => false
  | some s => s != ""

/-! ### Python dict as an association list -/

/-- `d.get(k)` / `d[k]` lookup. -/
def dget? {α : Type} : List (String × α) → String → Option α
  | [], _ => none
  | (k2, v) :: rest, k => if k2 = k then some v else dget? rest k

/-- `k in d`. -/
def dcontains {α : Type} (d : List (String × α)) (k : String) : Bool :=
  (dget? d k).isSome

/-- `d[k] = v`: replace in place if the key exists, else append. -/
def dinsert {α : Type} : List (String × α) → String → α → List (String × α)
  | [], k, v => [(k, v)]
  | (k2, v2) :: rest, k, v =>
    if k2 = k then (k, v) :: rest else (k2, v2) :: dinsert rest k v

/-- `d.setdefault(k, v)`. -/
def dsetdefault {α : Type} : List (String × α) → String → α → List (String × α)
  | [], k, v => [(k, v)]
  | (k2, v2) :: rest, k, v =>
    if k2 = k then (k2, v2) :: rest else (k2, v2) :: dsetdefault rest k v

/-- `d.update(other)`: assign every entry of `other` into `d` in order. -/
def dupdate {α : Type} (d other : List (String × α)) : List (String × α) :=
  other.foldl (fun acc kv => dinsert acc kv.1 kv.2) d

/-! ### Data model of the parsed document -/

/-- A `tspan` child element: `id` attribute and text content. -/
structure Tspan where
  id : Option String
  text : Option String
deriving DecidableEq, Repr

/-- A `text` child of a `switch`: `systemLanguage` attribute, own text,
direct `tspan` children. -/
structure TextElem where
  systemLanguage : Option String
  text : Option String
  tspans : List Tspan
deriving DecidableEq, Repr

/-- One `switch` element with its direct `text` children
(`./svg:text`, line 42). -/
structure Switch where
  texts : List TextElem
deriving DecidableEq, Repr

/-- One entry of `default_sequence` (lines 70-76 and 81-87). -/
structure SeqEntry where
  id : Option String
  text : String
  normalized : String
deriving DecidableEq, Repr

/-- A value of `translations["new"]` / `translations["title"]`: language code
(or, for the `"default_tspans_by_id"` entry, identifier) to text. -/
abbrev Entry := List (String × String)

/-- The `translations["new"]` (and `"title"`) dictionary. -/
abbrev Index := List (String × Entry)

/-- The dictionary returned on success: `new` is `none` when the `"new"`
entry was popped (lines 150-151), `title` is always present (line 143). -/
structure ExtractResult where
  new : Option Index
  title : Index
deriving DecidableEq, Repr

/-- The three inputs the function can face: a nonexistent path (line 17), a
file the XML parser rejects (lines 25-29), or a parsed document given by its
list of `switch` elements in document order (line 33). -/
inductive SvgInput where
  | missing : SvgInput
  | parseFailure : SvgInput
  | parsed : List Switch → SvgInput
deriving DecidableEq, Repr

/-- What a call to `extract` can do: return `None`, raise an uncaught
`KeyError`, or return the translations dictionary. -/
inductive ExtractOutcome where
  | pyNone : ExtractOutcome
  | raisedKeyError : ExtractOutcome
  | ok : ExtractResult → ExtractOutcome
deriving DecidableEq, Repr

/-! ### Text normalisation -/

/-- Modelled from the spec: `normalize_text` lives in `text_utils`, which is
not under `src/`.  Per section 4.4 it trims leading/trailing whitespace,
case-folds only when case-insensitive mode is enabled, and the one-argument
call sites (lines 108 and 111) store case-preserving values, so the mode
parameter defaults to off; empty input normalises to the empty string. -/
def normalize_text (text : String) (case_insensitive : Bool) : String :=
  if case_insensitive then pyLower (pyStrip text) else pyStrip text

/-- The key seeded for one default text content (lines 89-91:
`normalize_text(text, case_insensitive)` then `.lower()` when
case-insensitive). -/
def seedKey (ci : Bool) (t : String) : String :=
  let n := normalize_text t ci
  if ci then pyLower n else n

/-! ### Default-run collection (first inner loop, lines 52-92) -/

/-- Lines 59-63: `{tspan.get('id'): tspan.text.strip() for tspan in tspans
if tspan.text and tspan.get('id')}`. -/
def defaultTspansById (tspans : List Tspan) : Entry :=
  (tspans.filter (fun t => truthy t.text && truthy t.id)).foldl
    (fun d t => dinsert d (t.id.getD "") (pyStrip (t.text.getD ""))) []

/-- Line 65: `[tspan.text.strip() if tspan.text else "" for tspan in tspans]`. -/
def defaultContents (tspans : List Tspan) : List String :=
  tspans.map (fun t => if truthy t.text then pyStrip (t.text.getD "") else "")

/-- Lines 66-76: append every tspan with truthy text to `default_sequence`. -/
def defaultSeqFromTspans (ci : Bool) (tspans : List Tspan) : List SeqEntry :=
  (tspans.filter (fun t => truthy t.text)).map (fun t =>
    let tv := pyStrip (t.text.getD "")
    ⟨t.id, tv, normalize_text tv ci⟩)

/-- The `text_contents` list of a default element (line 65 for the tspan
branch, line 78 otherwise). -/
def elemDefaultContents (e : TextElem) : List String :=
  if e.tspans.isEmpty then
    match e.text with
    | some s => if s != "" then [pyStrip s] else [""]
    | none => [""]
  else defaultContents e.tspans

/-- Lines 89-92: seed `translations["new"]` with an empty entry per default
text content. -/
def seedIndex (ci : Bool) (new : Index) (contents : List String) : Index :=
  contents.foldl (fun n t => dsetdefault n (seedKey ci t) ([] : Entry)) new

/-- Body of the first inner loop for one default text element
(lines 57-92).  In the tspan branch, line 64 reads
`translations["new"]["default_tspans_by_id"]`, raising `KeyError` when the
key is absent (it is never initialised anywhere in the file). -/
def processDefaultElem (ci : Bool) (new : Index) (seq : List SeqEntry)
    (e : TextElem) : Except Unit (Index × List SeqEntry) :=
  if e.tspans.isEmpty then
    let seq2 :=
      if truthy e.text && pyStrip (e.text.getD "") != "" then
        seq ++ [⟨none, pyStrip (e.text.getD ""),
                normalize_text (pyStrip (e.text.getD "")) ci⟩]
      else seq
    Except.ok (seedIndex ci new (elemDefaultContents e), seq2)
  else
    match dget? new "default_tspans_by_id" with
    | none => Except.error ()
    | some m =>
      let new2 := dinsert new "default_tspans_by_id"
        (dupdate m (defaultTspansById e.tspans))
      Except.ok (seedIndex ci new2 (elemDefaultContents e),
        seq ++ defaultSeqFromTspans ci e.tspans)

/-- The first inner loop (lines 52-92): skip elements with a truthy
`systemLanguage`. -/
def processDefaults (ci : Bool) :
    Index → List SeqEntry → List TextElem → Except Unit (Index × List SeqEntry)
  | new, seq, [] => Except.ok (new, seq)
  | new, seq, e :: rest =>
    if truthy e.systemLanguage then processDefaults ci new seq rest
    else
      match processDefaultElem ci new seq e with
      | Except.error er => Except.error er
      | Except.ok p => processDefaults ci p.1 p.2 rest

/-! ### Translated-run collection (second inner loop, lines 94-134) -/

/-- Line 101: `{tspan.text.strip(): tspan.get('id') for tspan in tspans if
tspan.text and tspan.text.strip() and tspan.get('id')}`. -/
def transTspansToId (tspans : List Tspan) : Entry :=
  (tspans.filter (fun t =>
      truthy t.text && pyStrip (t.text.getD "") != "" && truthy t.id)).foldl
    (fun d t => dinsert d (pyStrip (t.text.getD "")) (t.id.getD "")) []

/-- The `text_contents` list of a translated element (lines 100-106). -/
def transContents (e : TextElem) : List String :=
  if e.tspans.isEmpty then
    match e.text with
    | some s => if s != "" then [pyStrip s] else [""]
    | none => [""]
  else e.tspans.map (fun t => if truthy t.text then pyStrip (t.text.getD "") else "")

/-- Lines 112-116: `base_id`, with Python's falsy `None` modelled as `""`
(the source only tests its truthiness and uses it as a lookup key). -/
def baseIdOf (t2i : Entry) (text : String) : String :=
  match dget? t2i (pyStrip text) with
  | some iv => if iv != "" then pyStrip (splitDashHead iv) else ""
  | none => ""

/-- Lines 118-123: resolve through
`translations["new"]["default_tspans_by_id"]`; raises `KeyError` when
`base_id` is truthy and that key is absent.  A falsy result (Python `None`
or `""`) is returned as `""`. -/
def idResolve (new : Index) (t2i : Entry) (text : String) :
    Except Unit String :=
  let base := baseIdOf t2i text
  if base != "" then
    match dget? new "default_tspans_by_id" with
    | none => Except.error ()
    | some m =>
      let e1 := (dget? m base).getD ""
      Except.ok (if e1 != "" then e1 else (dget? m (pyLower base)).getD "")
  else Except.ok ""

/-- Lines 118-126: identifier resolution followed by the positional
fallback into `default_sequence`. -/
def resolveEnglish (new : Index) (seq : List SeqEntry) (t2i : Entry)
    (idx : Nat) (text : String) : Except Unit String :=
  match idResolve new t2i text with
  | Except.error er => Except.error er
  | Except.ok viaId =>
    if viaId == "" then
      match seq.get? idx with
      | some se => Except.ok se.text
      | none => Except.ok ""
    else Except.ok viaId

/-- Line 132: `english_text if english_text in translations["new"] else
english_text.lower()`. -/
def storeKey (new : Index) (english : String) : String :=
  if dcontains new english then english else pyLower english

/-- Lines 132-134: write the normalised translation under the store key if
that key exists (otherwise the run is silently dropped). -/
def storeTranslation (new : Index) (lang english value : String) : Index :=
  let sk := storeKey new english
  match dget? new sk with
  | some entry => dinsert new sk (dinsert entry lang value)
  | none => new

/-- The `for idx, text in enumerate(text_contents)` loop (lines 110-134). -/
def processRuns (seq : List SeqEntry) (lang : String) (t2i : Entry) :
    Index → Nat → List String → Except Unit Index
  | new, _, [] => Except.ok new
  | new, idx, text :: rest =>
    match resolveEnglish new seq t2i idx text with
    | Except.error er => Except.error er
    | Except.ok english =>
      processRuns seq lang t2i
        (if english != "" then
          storeTranslation new lang english (normalize_text text false)
        else new)
        (idx + 1) rest

/-- Body of the second inner loop for one translated element
(lines 99-134). -/
def processTranslatedElem (new : Index) (seq : List SeqEntry) (lang : String)
    (e : TextElem) : Except Unit Index :=
  let t2i := if e.tspans.isEmpty then ([] : Entry) else transTspansToId e.tspans
  processRuns seq lang t2i new 0 (transContents e)

/-- The second inner loop (lines 94-134): skip elements with a falsy
`systemLanguage`. -/
def processTranslateds (seq : List SeqEntry) :
    Index → List TextElem → Except Unit Index
  | new, [] => Except.ok new
  | new, e :: rest =>
    if truthy e.systemLanguage then
      match processTranslatedElem new seq (e.systemLanguage.getD "") e with
      | Except.error er => Except.error er
      | Except.ok n2 => processTranslateds seq n2 rest
    else processTranslateds seq new rest

/-- One iteration of the outer `for switch in switches` loop
(lines 40-139); a switch without `text` children is skipped (line 44). -/
def processSwitch (ci : Bool) (new : Index) (sw : Switch) :
    Except Unit Index :=
  if sw.texts.isEmpty then Except.ok new
  else
    match processDefaults ci new [] sw.texts with
    | Except.error er => Except.error er
    | Except.ok p => processTranslateds p.2 p.1 sw.texts

/-- The outer loop over all switches. -/
def processSwitches (ci : Bool) : Index → List Switch → Except Unit Index
  | new, [] => Except.ok new
  | new, sw :: rest =>
    match processSwitch ci new sw with
    | Except.error er => Except.error er
    | Except.ok n2 => processSwitches ci n2 rest

/-! ### Year-suffix title extraction (lines 143-148) -/

/-- The guard of lines 145-147 for one `(key, mapping)` item. -/
def titleEligible (key : String) (mapping : Entry) : Bool :=
  key != "" && pyIsdigit (last4 key) &&
    (key != last4 key &&
      mapping.all (fun p => pyIsdigit (last4 p.2) && last4 p.2 == last4 key))

/-- Line 148: the title entry derived from one eligible item. -/
def titleValue (mapping : Entry) : Entry :=
  mapping.map (fun p => (p.1, dropLast4 p.2))

/-- One iteration of the loop of lines 144-148. -/
def buildTitleStep (title : Index) (kv : String × Entry) : Index :=
  if titleEligible kv.1 kv.2 then
    dinsert title (dropLast4 kv.1) (titleValue kv.2)
  else title

/-- Lines 143-148: build `translations["title"]` from the completed
`translations["new"]`. -/
def buildTitle (new : Index) : Index :=
  new.foldl buildTitleStep []

/-- Lines 30-153 on a parsed document: run all switches, derive the title
index, pop `"new"` when empty. -/
def extractCore (ci : Bool) (switches : List Switch) :
    Except Unit ExtractResult :=
  match processSwitches ci [] switches with
  | Except.error er => Except.error er
  | Except.ok new =>
    Except.ok ⟨if new.isEmpty then none else some new, buildTitle new⟩

/-- The whole of `extract` (lines 13-153): `None` on a missing path or a
parse failure, otherwise the core pipeline (whose uncaught `KeyError`
escapes to the caller). -/
def extract (input : SvgInput) (case_insensitive : Bool) : ExtractOutcome :=
  match input with
  | SvgInput.missing => ExtractOutcome.pyNone
  | SvgInput.parseFailure => ExtractOutcome.pyNone
  | SvgInput.parsed switches =>
    match extractCore case_insensitive switches with
    | Except.error _ => ExtractOutcome.raisedKeyError
    | Except.ok r => ExtractOutcome.ok r

/-! ### Derived vocabulary used by the theorems -/

/-- The seed keys contributed by one `text` child: nothing for a translated
element, otherwise `seedKey` of each default text content (lines 89-92). -/
def elemSeedKeys (ci : Bool) (e : TextElem) : List String :=
  if truthy e.systemLanguage then []
  else (elemDefaultContents e).map (seedKey ci)

/-- All seed keys of one switch. -/
def switchSeedKeys (ci : Bool) (sw : Switch) : List String :=
  (sw.texts.map (elemSeedKeys ci)).flatten

/-- All seed keys of a parsed document. -/
def docSeedKeys (ci : Bool) (sws : List Switch) : List String :=
  (sws.map (switchSeedKeys ci)).flatten

/-! ### Concrete documents used by the claim theorems -/

/-- A switch whose default text element carries a tspan sub-run. -/
def docC1 : List Switch :=
  [⟨[⟨none, none, [⟨some "id1", some "Hello"⟩]⟩]⟩]

/-- The identifier cross-reference scenario of the spec: default tspan
`id1` with text `Hello`, translated tspan `id1-fr` with text `Bonjour`
under `systemLanguage="fr"`. -/
def docC2 : List Switch :=
  [⟨[⟨none, none, [⟨some "id1", some "Hello"⟩]⟩,
     ⟨some "fr", none, [⟨some "id1-fr", some "Bonjour"⟩]⟩]⟩]

/-- A switch whose only default text element has whitespace-only text. -/
def docC3 : List Switch :=
  [⟨[⟨none, some "   ", []⟩]⟩]

/-- A switch with a whitespace-only default text and a translated text:
zero non-empty default texts. -/
def docC4 : List Switch :=
  [⟨[⟨none, some "  ", []⟩, ⟨some "de", some "Hallo", []⟩]⟩]

/-- A switch in which every text element is language-tagged and no tspan
has an identifier. -/
def docC4w : List Switch :=
  [⟨[⟨some "de", some "x", [⟨none, some "y"⟩]⟩]⟩]

/-- The positional-fallback scenario of the spec: default run
`Hello` with no identifier at position 0, translated run `Hallo` under
`de` at position 0. -/
def docC7 : List Switch :=
  [⟨[⟨none, some "Hello", []⟩, ⟨some "de", some "Hallo", []⟩]⟩]

/-- A default text whose content is the literal string
`default_tspans_by_id` seeds that key, after which the identifier map is
stored inside the returned index and shared across switch groups. -/
def docC8 : List Switch :=
  [⟨[⟨none, some "default_tspans_by_id", []⟩,
     ⟨none, none, [⟨some "X", some "Hello"⟩]⟩]⟩,
   ⟨[⟨some "fr", none, [⟨some "X-fr", some "Bonjour"⟩]⟩]⟩]

/-- With case-insensitive mode disabled: switch one stores the translated
text `HELLO` inside the index-resident identifier map (via positional
fallback onto the default phrase `default_tspans_by_id`); switch two then
resolves `HELLO` through identifier `fr-x` and, since `HELLO` is not a key,
falls back to the lowercased key `hello`. -/
def docC9 : List Switch :=
  [⟨[⟨none, some "default_tspans_by_id", []⟩, ⟨some "fr", some "HELLO", []⟩]⟩,
   ⟨[⟨none, some "hello", []⟩,
     ⟨some "de", none, [⟨some "fr-x", some "Target"⟩]⟩]⟩]

/-- A switch whose default run sequence has, at position 1, a run with
empty text (a whitespace-only default tspan), and whose translated element
has an empty sub-run at position 1. -/
def docC10 : List Switch :=
  [⟨[⟨none, some "default_tspans_by_id", []⟩,
     ⟨none, none, [⟨some "a", some "  "⟩]⟩,
     ⟨some "de", none, [⟨none, some "x"⟩, ⟨none, none⟩]⟩]⟩]

/-- Two translated elements for the same language `de`: the second consists
of a single empty tspan sub-run, which overwrites the earlier non-empty
translation with the empty string. -/
def docC10over : List Switch :=
  [⟨[⟨none, some "Hello", []⟩, ⟨some "de", some "Hallo", []⟩,
     ⟨some "de", none, [⟨none, none⟩]⟩]⟩]

/-! ### Dictionary lemmas -/

theorem dget?_dinsert_self {α : Type} (d : List (String × α)) (k : String)
    (v : α) : dget? (dinsert d k v) k = some v := by
  induction d with
  | nil => simp [dinsert, dget?]
  | cons hd tl ih =>
    by_cases h : hd.1 = k
    · simp [dinsert, h, dget?]
    · simpa [dinsert, h, dget?] using ih

theorem dget?_dinsert_ne {α : Type} (d : List (String × α)) (k k2 : String)
    (v : α) (h : k2 ≠ k) : dget? (dinsert d k v) k2 = dget? d k2 := by
  induction d with
  | nil => simp [dinsert, dget?, Ne.symm h]
  | cons hd tl ih =>
    by_cases h2 : hd.1 = k
    · simp [dinsert, h2, dget?, Ne.symm h]
    · simp [dinsert, h2, dget?, ih]

theorem dcontains_dinsert {α : Type} (d : List (String × α)) (k k2 : String)
    (v : α) :
    dcontains (dinsert d k v) k2 = true ↔
      (dcontains d k2 = true ∨ k2 = k) := by
  by_cases h : k2 = k
  · subst h
    simp [dcontains, dget?_dinsert_self]
  · simp [dcontains, dget?_dinsert_ne d k k2 v h, h]

theorem dcontains_dinsert_of_mem {α : Type} (d : List (String × α))
    (k k2 : String) (v : α) (h : dcontains d k = true) :
    dcontains (dinsert d k v) k2 = dcontains d k2 := by
  by_cases h2 : k2 = k
  · subst h2
    simp only [dcontains] at h ⊢
    simp [dget?_dinsert_self, h]
  · simp [dcontains, dget?_dinsert_ne d k k2 v h2]

theorem dcontains_dsetdefault {α : Type} (d : List (String × α))
    (k k2 : String) (v : α) :
    dcontains (dsetdefault d k v) k2 = true ↔
      (dcontains d k2 = true ∨ k2 = k) := by
  induction d with
  | nil =>
    by_cases h : k = k2
    · subst h
      simp [dsetdefault, dcontains, dget?]
    · simp [dsetdefault, dcontains, dget?, h, Ne.symm h]
  | cons hd tl ih =>
    obtain ⟨hk, hv⟩ := hd
    by_cases h2 : hk = k
    · subst h2
      by_cases h3 : hk = k2
      · subst h3
        simp [dsetdefault, dcontains, dget?]
      · simp [dsetdefault, dcontains, dget?, h3, Ne.symm h3]
    · by_cases h3 : hk = k2
      · subst h3
        simp [dsetdefault, h2, dcontains, dget?]
      · simpa [dsetdefault, h2, dcontains, dget?, h3] using ih

/-! ### Key-set lemmas: translated runs never create keys, default seeding
creates exactly the seed keys -/

theorem storeTranslation_keys (new : Index) (lang english value k : String) :
    dcontains (storeTranslation new lang english value) k = dcontains new k := by
  cases h : dget? new (storeKey new english) with
  | none => simp [storeTranslation, h]
  | some entry =>
    have hc : dcontains new (storeKey new english) = true := by
      simp [dcontains, h]
    simp [storeTranslation, h, dcontains_dinsert_of_mem _ _ _ _ hc]

theorem processRuns_keys (seq : List SeqEntry) (lang : String) (t2i : Entry)
    (texts : List String) :
    ∀ (new : Index) (idx : Nat) (out : Index),
      processRuns seq lang t2i new idx texts = Except.ok out →
      ∀ k, dcontains out k = dcontains new k := by
  induction texts with
  | nil =>
    intro new idx out h k
    simp only [processRuns, Except.ok.injEq] at h
    rw [← h]
  | cons text rest ih =>
    intro new idx out h k
    rw [processRuns] at h
    cases he : resolveEnglish new seq t2i idx text with
    | error er => rw [he] at h; cases h
    | ok english =>
      rw [he] at h
      rw [ih _ _ _ h k]
      by_cases hne : english != "" <;>
        simp [hne, storeTranslation_keys]

theorem processTranslatedElem_keys (new : Index) (seq : List SeqEntry)
    (lang : String) (e : TextElem) (out : Index)
    (h : processTranslatedElem new seq lang e = Except.ok out) :
    ∀ k, dcontains out k = dcontains new k :=
  processRuns_keys seq lang _ _ new 0 out h

theorem processTranslateds_keys (seq : List SeqEntry) (texts : List TextElem) :
    ∀ (new out : Index),
      processTranslateds seq new texts = Except.ok out →
      ∀ k, dcontains out k = dcontains new k := by
  induction texts with
  | nil =>
    intro new out h k
    simp only [processTranslateds, Except.ok.injEq] at h
    rw [← h]
  | cons e rest ih =>
    intro new out h k
    by_cases hl : truthy e.systemLanguage
    · rw [processTranslateds, if_pos hl] at h
      cases he : processTranslatedElem new seq (e.systemLanguage.getD "") e with
      | error er => rw [he] at h; cases h
      | ok n2 =>
        rw [he] at h
        rw [ih _ _ h k, processTranslatedElem_keys _ _ _ _ _ he k]
    · rw [processTranslateds, if_neg hl] at h
      exact ih _ _ h k

theorem seedIndex_keys (ci : Bool) (contents : List String) :
    ∀ (new : Index) (k : String),
      dcontains (seedIndex ci new contents) k = true ↔
        (dcontains new k = true ∨ k ∈ contents.map (seedKey ci)) := by
  induction contents with
  | nil => intro new k; simp [seedIndex]
  | cons t rest ih =>
    intro new k
    have step : seedIndex ci new (t :: rest)
        = seedIndex ci (dsetdefault new (seedKey ci t) []) rest := rfl
    rw [step, ih]
    rw [dcontains_dsetdefault]
    simp only [List.map_cons, List.mem_cons]
    tauto

theorem processDefaultElem_keys (ci : Bool) (new : Index)
    (seq : List SeqEntry) (e : TextElem) (out : Index) (seq2 : List SeqEntry)
    (h : processDefaultElem ci new seq e = Except.ok (out, seq2)) :
    ∀ k, dcontains out k = true ↔
      (dcontains new k = true ∨ k ∈ (elemDefaultContents e).map (seedKey ci)) := by
  intro k
  by_cases ht : e.tspans.isEmpty
  · rw [processDefaultElem, if_pos ht] at h
    simp only [Except.ok.injEq, Prod.mk.injEq] at h
    rw [← h.1]
    exact seedIndex_keys ci _ new k
  · rw [processDefaultElem, if_neg ht] at h
    cases hm : dget? new "default_tspans_by_id" with
    | none => rw [hm] at h; cases h
    | some m =>
      rw [hm] at h
      simp only [Except.ok.injEq, Prod.mk.injEq] at h
      have hc : dcontains new "default_tspans_by_id" = true := by
        simp [dcontains, hm]
      rw [← h.1]
      rw [seedIndex_keys]
      rw [dcontains_dinsert_of_mem _ _ _ _ hc]

theorem processDefaults_keys (ci : Bool) (texts : List TextElem) :
    ∀ (new : Index) (seq : List SeqEntry) (out : Index)
      (seqOut : List SeqEntry),
      processDefaults ci new seq texts = Except.ok (out, seqOut) →
      ∀ k, dcontains out k = true ↔
        (dcontains new k = true ∨ k ∈ (texts.map (elemSeedKeys ci)).flatten) := by
  induction texts with
  | nil =>
    intro new seq out seqOut h k
    simp only [processDefaults, Except.ok.injEq, Prod.mk.injEq] at h
    simp [← h.1]
  | cons e rest ih =>
    intro new seq out seqOut h k
    by_cases hl : truthy e.systemLanguage
    · rw [processDefaults, if_pos hl] at h
      have hm : elemSeedKeys ci e = [] := by simp [elemSeedKeys, hl]
      rw [ih _ _ _ _ h k]
      simp only [List.map_cons, List.flatten_cons, hm, List.nil_append]
    · rw [processDefaults, if_neg hl] at h
      cases he : processDefaultElem ci new seq e with
      | error er => rw [he] at h; cases h
      | ok p =>
        rw [he] at h
        rw [ih _ _ _ _ h k]
        have hp := processDefaultElem_keys ci new seq e p.1 p.2 (by rw [he]) k
        have hm : elemSeedKeys ci e = (elemDefaultContents e).map (seedKey ci) := by
          simp [elemSeedKeys, hl]
        rw [hp]
        simp only [List.map_cons, List.flatten_cons, List.mem_append, hm]
        tauto

theorem processSwitch_keys (ci : Bool) (new : Index) (sw : Switch)
    (out : Index) (h : processSwitch ci new sw = Except.ok out) :
    ∀ k, dcontains out k = true ↔
      (dcontains new k = true ∨ k ∈ switchSeedKeys ci sw) := by
  intro k
  by_cases he : sw.texts.isEmpty
  · rw [processSwitch, if_pos he] at h
    simp only [Except.ok.injEq] at h
    cases sw with
    | mk texts =>
      simp only [Switch.texts] at he
      rw [List.isEmpty_iff] at he
      subst he
      simp [switchSeedKeys, ← h]
  · rw [processSwitch, if_neg he] at h
    cases hd : processDefaults ci new [] sw.texts with
    | error er => rw [hd] at h; cases h
    | ok p =>
      rw [hd] at h
      have h1 := processTranslateds_keys p.2 sw.texts p.1 out h k
      have h2 := processDefaults_keys ci sw.texts new [] p.1 p.2 (by rw [hd]) k
      rw [h1, h2]
      rfl

theorem processSwitches_keys (ci : Bool) (sws : List Switch) :
    ∀ (new out : Index),
      processSwitches ci new sws = Except.ok out →
      ∀ k, dcontains out k = true ↔
        (dcontains new k = true ∨ k ∈ docSeedKeys ci sws) := by
  induction sws with
  | nil =>
    intro new out h k
    simp only [processSwitches, Except.ok.injEq] at h
    simp [docSeedKeys, ← h]
  | cons sw rest ih =>
    intro new out h k
    rw [processSwitches] at h
    cases hs : processSwitch ci new sw with
    | error er => rw [hs] at h; cases h
    | ok n2 =>
      rw [hs] at h
      rw [ih _ _ h k, processSwitch_keys ci new sw n2 hs k]
      simp only [docSeedKeys, List.map_cons, List.flatten_cons, List.mem_append]
      constructor
      · rintro ((h1 | h1) | h1)
        · exact Or.inl h1
        · exact Or.inr (Or.inl h1)
        · exact Or.inr (Or.inr h1)
      · rintro (h1 | h1 | h1)
        · exact Or.inl (Or.inl h1)
        · exact Or.inl (Or.inr h1)
        · exact Or.inr h1

/-- Every key of a successfully returned phrase index is one of the
document's seed keys: translated-run writes never create keys. -/
theorem extract_keys (ci : Bool) (sws : List Switch) (r : ExtractResult)
    (n : Index) (k : String)
    (h : extract (SvgInput.parsed sws) ci = ExtractOutcome.ok r)
    (hn : r.new = some n) (hk : dcontains n k = true) :
    k ∈ docSeedKeys ci sws := by
  rw [extract] at h
  cases hc : extractCore ci sws with
  | error er => rw [hc] at h; cases h
  | ok r2 =>
    rw [hc] at h
    simp only [ExtractOutcome.ok.injEq] at h
    subst h
    rw [extractCore] at hc
    cases hp : processSwitches ci [] sws with
    | error er => rw [hp] at hc; cases hc
    | ok newIdx =>
      rw [hp] at hc
      simp only [Except.ok.injEq] at hc
      have hkeys := processSwitches_keys ci sws [] newIdx hp k
      have hnew : n = newIdx := by
        rw [← hc] at hn
        by_cases hni : newIdx.isEmpty
        · simp [hni] at hn
        · simp [hni] at hn
          exact hn.symm
      subst hnew
      rcases hkeys.mp hk with h1 | h1
      · simp [dcontains, dget?] at h1
      · exact h1

/-! ### Runs that can touch nothing: documents with no default elements and
no identified sub-runs -/

theorem processRuns_empty_all (lang : String) (texts : List String) :
    ∀ idx : Nat, processRuns [] lang [] [] idx texts = Except.ok [] := by
  induction texts with
  | nil => intro idx; rfl
  | cons text rest ih =>
    intro idx
    rw [processRuns]
    have hr : resolveEnglish [] [] [] idx text = Except.ok "" := rfl
    rw [hr]
    exact ih (idx + 1)

theorem processTranslatedElem_empty (lang : String) (e : TextElem)
    (hid : ∀ t ∈ e.tspans, truthy t.id = false) :
    processTranslatedElem [] [] lang e = Except.ok [] := by
  have ht2i : (if e.tspans.isEmpty then ([] : Entry)
      else transTspansToId e.tspans) = [] := by
    by_cases h : e.tspans.isEmpty
    · simp [h]
    · have hf : e.tspans.filter (fun t =>
          truthy t.text && pyStrip (t.text.getD "") != "" && truthy t.id) = [] := by
        rw [List.filter_eq_nil_iff]
        intro t htm
        simp [hid t htm]
      simp [h, transTspansToId, hf]
  rw [processTranslatedElem, ht2i]
  exact processRuns_empty_all lang (transContents e) 0

theorem processTranslateds_empty (texts : List TextElem)
    (hid : ∀ e ∈ texts, ∀ t ∈ e.tspans, truthy t.id = false) :
    processTranslateds [] [] texts = Except.ok [] := by
  induction texts with
  | nil => rfl
  | cons e rest ih =>
    have htail : ∀ e2 ∈ rest, ∀ t ∈ e2.tspans, truthy t.id = false :=
      fun e2 he2 t ht => hid e2 (List.mem_cons_of_mem _ he2) t ht
    rw [processTranslateds]
    by_cases hl : truthy e.systemLanguage
    · rw [if_pos hl,
        processTranslatedElem_empty _ e (hid e (List.mem_cons_self _ _))]
      exact ih htail
    · rw [if_neg hl]
      exact ih htail

theorem processDefaults_skip (ci : Bool) (texts : List TextElem)
    (hl : ∀ e ∈ texts, truthy e.systemLanguage = true) :
    ∀ (new : Index) (seq : List SeqEntry),
      processDefaults ci new seq texts = Except.ok (new, seq) := by
  induction texts with
  | nil => intro new seq; rfl
  | cons e rest ih =>
    intro new seq
    rw [processDefaults, if_pos (hl e (List.mem_cons_self _ _))]
    exact ih (fun e2 h => hl e2 (List.mem_cons_of_mem _ h)) new seq

theorem processSwitch_empty (ci : Bool) (sw : Switch)
    (hl : ∀ e ∈ sw.texts, truthy e.systemLanguage = true)
    (hid : ∀ e ∈ sw.texts, ∀ t ∈ e.tspans, truthy t.id = false) :
    processSwitch ci [] sw = Except.ok [] := by
  by_cases he : sw.texts.isEmpty
  · rw [processSwitch, if_pos he]
  · rw [processSwitch, if_neg he, processDefaults_skip ci sw.texts hl [] []]
    exact processTranslateds_empty sw.texts hid

theorem processSwitches_empty (ci : Bool) (sws : List Switch)
    (h : ∀ sw ∈ sws, (∀ e ∈ sw.texts, truthy e.systemLanguage = true) ∧
      (∀ e ∈ sw.texts, ∀ t ∈ e.tspans, truthy t.id = false)) :
    processSwitches ci [] sws = Except.ok [] := by
  induction sws with
  | nil => rfl
  | cons sw rest ih =>
    rw [processSwitches,
      processSwitch_empty ci sw (h sw (List.mem_cons_self _ _)).1
        (h sw (List.mem_cons_self _ _)).2]
    exact ih (fun sw2 hm => h sw2 (List.mem_cons_of_mem _ hm))

/-! ### Characterising the year-suffix title extraction -/

theorem last4_of_length_le (s : String) (h : s.data.length ≤ 4) :
    last4 s = s := by
  have h0 : s.data.length - 4 = 0 := Nat.sub_eq_zero_of_le h
  obtain ⟨data⟩ := s
  simp [last4, h0]

theorem last4_length (s : String) (h : 4 ≤ s.data.length) :
    (last4 s).data.length = 4 := by
  show (s.data.drop (s.data.length - 4)).length = 4
  rw [List.length_drop]
  omega

theorem ne_last4_of_length_gt (s : String) (h : 4 < s.data.length) :
    s ≠ last4 s := by
  intro he
  have := congrArg (fun t => t.data.length) he
  simp only at this
  rw [last4_length s (Nat.le_of_lt h)] at this
  omega

/-- The guard of lines 145-147 holds exactly when the key is longer than
four characters, ends in four digits, and every value ends in the same four
characters. -/
theorem titleEligible_iff (k : String) (m : Entry) :
    titleEligible k m = true ↔
      (4 < k.data.length ∧ pyIsdigit (last4 k) = true ∧
        ∀ p ∈ m, last4 p.2 = last4 k) := by
  constructor
  · intro h
    simp only [titleEligible, Bool.and_eq_true, bne_iff_ne, ne_eq,
      List.all_eq_true] at h
    obtain ⟨⟨hne, hdig⟩, hky, hall⟩ := h
    have hlen : 4 < k.data.length := by
      by_contra hle
      exact hky (last4_of_length_le k (by omega)).symm
    refine ⟨hlen, hdig, fun p hp => ?_⟩
    have := hall p hp
    simp only [Bool.and_eq_true, beq_iff_eq] at this
    exact this.2
  · intro h
    obtain ⟨hlen, hdig, hall⟩ := h
    have hne : k ≠ "" := by
      intro he
      subst he
      simp at hlen
    simp only [titleEligible, Bool.and_eq_true, bne_iff_ne, ne_eq,
      List.all_eq_true]
    refine ⟨⟨hne, hdig⟩, ne_last4_of_length_gt k hlen, fun p hp => ?_⟩
    simp only [Bool.and_eq_true, beq_iff_eq]
    exact ⟨by rw [hall p hp]; exact hdig, hall p hp⟩

theorem buildTitle_aux_mono (new : List (String × Entry)) :
    ∀ (acc : Index) (k2 : String), dcontains acc k2 = true →
      dcontains (new.foldl buildTitleStep acc) k2 = true := by
  induction new with
  | nil => intro acc k2 h; exact h
  | cons kv rest ih =>
    intro acc k2 h
    rw [List.foldl_cons]
    apply ih
    rw [buildTitleStep]
    by_cases he : titleEligible kv.1 kv.2
    · rw [if_pos he]
      exact (dcontains_dinsert _ _ _ _).mpr (Or.inl h)
    · rw [if_neg he]
      exact h

theorem buildTitle_aux_contains (k : String) (m : Entry)
    (hel : titleEligible k m = true) :
    ∀ (new : List (String × Entry)) (acc : Index), (k, m) ∈ new →
      dcontains (new.foldl buildTitleStep acc) (dropLast4 k) = true := by
  intro new
  induction new with
  | nil => intro acc h; cases h
  | cons kv rest ih =>
    intro acc hmem
    rw [List.foldl_cons]
    rcases List.mem_cons.mp hmem with heq | hmem2
    · apply buildTitle_aux_mono
      rw [← heq, buildTitleStep]
      simp only [if_pos hel]
      simp [dcontains, dget?_dinsert_self]
    · exact ih (buildTitleStep acc kv) hmem2

theorem buildTitle_aux_lookup (k2 : String) (w : Entry) :
    ∀ (new : List (String × Entry)) (acc : Index),
      dget? (new.foldl buildTitleStep acc) k2 = some w →
      (∃ k m, (k, m) ∈ new ∧ titleEligible k m = true ∧
        k2 = dropLast4 k ∧ w = titleValue m) ∨ dget? acc k2 = some w := by
  intro new
  induction new with
  | nil => intro acc h; exact Or.inr h
  | cons kv rest ih =>
    intro acc h
    rw [List.foldl_cons] at h
    rcases ih (buildTitleStep acc kv) h with h1 | h1
    · obtain ⟨k, m, hm, he, hk, hw⟩ := h1
      exact Or.inl ⟨k, m, List.mem_cons_of_mem _ hm, he, hk, hw⟩
    · by_cases hel : titleEligible kv.1 kv.2
      · rw [buildTitleStep, if_pos hel] at h1
        by_cases hk : k2 = dropLast4 kv.1
        · subst hk
          rw [dget?_dinsert_self] at h1
          exact Or.inl ⟨kv.1, kv.2, by simp, hel, rfl,
            (Option.some.inj h1).symm⟩
        · rw [dget?_dinsert_ne _ _ _ _ hk] at h1
          exact Or.inr h1
      · rw [buildTitleStep, if_neg hel] at h1
        exact Or.inr h1

theorem dget?_foldl_dinsert_empty :
    ∀ (l : List Tspan) (d : Entry),
      (∀ t ∈ l, pyStrip (t.text.getD "") ≠ "") → dget? d "" = none →
      dget? (l.foldl (fun acc t =>
        dinsert acc (pyStrip (t.text.getD "")) (t.id.getD "")) d) "" = none := by
  intro l
  induction l with
  | nil => intro d _ hd; exact hd
  | cons t rest ih =>
    intro d hl hd
    rw [List.foldl_cons]
    refine ih _ (fun t2 ht2 => hl t2 (List.mem_cons_of_mem _ ht2)) ?_
    rw [dget?_dinsert_ne _ _ _ _
      (fun he => hl t (List.mem_cons_self _ _) he.symm)]
    exact hd

/-! ### Unfolding helpers -/

theorem extract_parsed (ci : Bool) (sws : List Switch) :
    extract (SvgInput.parsed sws) ci =
      match extractCore ci sws with
      | Except.error _ => ExtractOutcome.raisedKeyError
      | Except.ok r => ExtractOutcome.ok r := rfl

theorem extractCore_eq (ci : Bool) (sws : List Switch) :
    extractCore ci sws =
      match processSwitches ci [] sws with
      | Except.error er => Except.error er
      | Except.ok new =>
        Except.ok ⟨if new.isEmpty then none else some new, buildTitle new⟩ := rfl

/-! ### Claim theorems -/

/-- Claim C1: the spec says that once the document parses, extraction runs
to completion and never aborts, in particular when a switch group's default
text element contains tspan sub-runs.  The code instead raises an uncaught
`KeyError` on exactly that input: line 64 reads
`translations["new"]["default_tspans_by_id"]`, a key that no statement ever
initialises. -/
theorem claim_C1_keyerror :
    extract (SvgInput.parsed docC1) true = ExtractOutcome.raisedKeyError := rfl

/-- Claim C2: on the spec's own cross-reference scenario (default tspan
`id1` with text `Hello`, translated tspan `id1-fr` with text `Bonjour`
under `fr`) the code raises the uncaught `KeyError` of line 64 instead of
returning an index mapping the key derived from `Hello` to
`fr -> Bonjour`. -/
theorem claim_C2_keyerror :
    extract (SvgInput.parsed docC2) true = ExtractOutcome.raisedKeyError := rfl

/-- Claim C3 counterexample: a default text element with whitespace-only
text seeds the empty-string key (lines 78 and 89-92), so the returned
phrase index contains the key `""`, contradicting the claimed non-empty-key
invariant. -/
theorem claim_C3_counterexample :
    extract (SvgInput.parsed docC3) true =
      ExtractOutcome.ok ⟨some [("", [])], []⟩ := rfl

/-- Claim C3 (amended): every key of a returned phrase index is one of the
document's seed keys (`seedKey` applied to a default text content);
translated-run writes never create keys.  Because a default text element
with empty, whitespace-only, or absent text has `""` among its contents,
the empty string can be (and is) seeded as a key. -/
theorem claim_C3_amended (ci : Bool) (sws : List Switch) (r : ExtractResult)
    (n : Index) (k : String)
    (h : extract (SvgInput.parsed sws) ci = ExtractOutcome.ok r)
    (hn : r.new = some n) (hk : dcontains n k = true) :
    k ∈ docSeedKeys ci sws :=
  extract_keys ci sws r n k h hn hk

/-- Witness for claim C3 (amended) at `docC3`: the returned index's only
key, the empty string, is among the document's seed keys. -/
theorem claim_C3_amended_witness :
    extract (SvgInput.parsed docC3) true = ExtractOutcome.ok ⟨some [("", [])], []⟩ ∧
      "" ∈ docSeedKeys true docC3 :=
  ⟨rfl, claim_C3_amended true docC3 ⟨some [("", [])], []⟩ [("", [])] "" rfl rfl rfl⟩

/-- Claim C4 counterexample: a document with a switch group and zero
non-empty default texts (one whitespace-only default plus one translated
text) returns a *present* phrase index containing the empty key, not an
absent one. -/
theorem claim_C4_counterexample :
    extract (SvgInput.parsed docC4) true =
      ExtractOutcome.ok ⟨some [("", [])], []⟩ := rfl

/-- Claim C4 (amended): a document whose switch groups contain no default
(untagged) text element at all, and no tspan with a truthy identifier,
yields a result whose phrase index is absent (popped) and whose title index
is present and empty.  When a default element exists but its texts are all
empty or whitespace, the phrase index is instead present with the empty
key seeded. -/
theorem claim_C4_amended (ci : Bool) (sws : List Switch)
    (h : ∀ sw ∈ sws, (∀ e ∈ sw.texts, truthy e.systemLanguage = true) ∧
      (∀ e ∈ sw.texts, ∀ t ∈ e.tspans, truthy t.id = false)) :
    extract (SvgInput.parsed sws) ci = ExtractOutcome.ok ⟨none, []⟩ := by
  rw [extract_parsed, extractCore_eq, processSwitches_empty ci sws h]
  rfl

/-- Witness for claim C4 (amended): a document with one switch whose only
text element is language-tagged and whose tspan has no identifier. -/
theorem claim_C4_amended_witness :
    extract (SvgInput.parsed docC4w) true = ExtractOutcome.ok ⟨none, []⟩ :=
  claim_C4_amended true docC4w (by decide)

/-- Claim C5 counterexample: a nonexistent path and an unparsable file
produce the *same* return value (Python `None`), so the two failure kinds
are not distinguished from each other. -/
theorem claim_C5_counterexample :
    extract SvgInput.missing true = extract SvgInput.parseFailure true := rfl

/-- Claim C5 (amended): both failure conditions return the same failure
value `None` — distinguished from every success value (and from the
`KeyError` abort), but not from each other; no partial index accompanies
it. -/
theorem claim_C5_amended (ci : Bool) :
    extract SvgInput.missing ci = ExtractOutcome.pyNone ∧
    extract SvgInput.parseFailure ci = ExtractOutcome.pyNone ∧
    ∀ sws : List Switch,
      extract (SvgInput.parsed sws) ci ≠ ExtractOutcome.pyNone := by
  refine ⟨rfl, rfl, fun sws h => ?_⟩
  rw [extract_parsed] at h
  cases hc : extractCore ci sws with
  | error er => rw [hc] at h; cases h
  | ok r => rw [hc] at h; cases h

/-- Claim C6: a title entry keyed by `K` minus its last four characters is
created exactly when `K` is longer than four characters, ends in four ASCII
digits, and every translation value ends in those same four characters; the
title values are the translations with their last four characters removed.
The third part ties the title index of any successful extraction to
`buildTitle`. -/
theorem claim_C6_title (new : Index) :
    (∀ k m, (k, m) ∈ new →
      (4 < k.data.length ∧ pyIsdigit (last4 k) = true ∧
        ∀ p ∈ m, last4 p.2 = last4 k) →
      dcontains (buildTitle new) (dropLast4 k) = true) ∧
    (∀ k2 w, dget? (buildTitle new) k2 = some w →
      ∃ k m, (k, m) ∈ new ∧ 4 < k.data.length ∧ pyIsdigit (last4 k) = true ∧
        (∀ p ∈ m, last4 p.2 = last4 k) ∧ k2 = dropLast4 k ∧
        w = m.map (fun p => (p.1, dropLast4 p.2))) ∧
    (∀ (ci : Bool) (sws : List Switch) (r : ExtractResult),
      extract (SvgInput.parsed sws) ci = ExtractOutcome.ok r →
      ∃ n, processSwitches ci [] sws = Except.ok n ∧ r.title = buildTitle n) := by
  refine ⟨?_, ?_, ?_⟩
  · intro k m hm hc
    exact buildTitle_aux_contains k m ((titleEligible_iff k m).mpr hc) new [] hm
  · intro k2 w h
    rcases buildTitle_aux_lookup k2 w new [] h with h1 | h1
    · obtain ⟨k, m, hm, he, hk, hw⟩ := h1
      have hcond := (titleEligible_iff k m).mp he
      exact ⟨k, m, hm, hcond.1, hcond.2.1, hcond.2.2, hk, hw⟩
    · cases h1
  · intro ci sws r h
    rw [extract_parsed] at h
    cases hc : extractCore ci sws with
    | error er => rw [hc] at h; cases h
    | ok r2 =>
      rw [hc] at h
      cases h
      rw [extractCore_eq] at hc
      cases hp : processSwitches ci [] sws with
      | error er => rw [hp] at hc; cases hc
      | ok n =>
        rw [hp] at hc
        cases hc
        exact ⟨n, rfl, rfl⟩

/-- Witness for claim C6 at a concrete index: `Paris2023` with value
`Ville2023` produces a title entry under `Paris`. -/
theorem claim_C6_title_witness :
    dcontains (buildTitle [("Paris2023", [("fr", "Ville2023")])]) "Paris" = true :=
  (claim_C6_title [("Paris2023", [("fr", "Ville2023")])]).1 "Paris2023"
    [("fr", "Ville2023")] (by decide) ⟨by decide, by decide, by decide⟩

/-- Claim C7: a translated run whose identifier resolution produces nothing
falls back to the default run at the same position whenever that position
is within range of the default run sequence; on the spec's concrete
scenario (default `Hello`, translated `Hallo` under `de`, both at position
0) the entry for the default phrase — keyed by its case-folded form
`hello` — maps `de` to `Hallo`. -/
theorem claim_C7_positional :
    (∀ (new : Index) (seq : List SeqEntry) (t2i : Entry) (idx : Nat)
        (text : String) (se : SeqEntry),
      idResolve new t2i text = Except.ok "" → seq.get? idx = some se →
      resolveEnglish new seq t2i idx text = Except.ok se.text) ∧
    extract (SvgInput.parsed docC7) true =
      ExtractOutcome.ok ⟨some [("hello", [("de", "Hallo")])], []⟩ := by
  constructor
  · intro new seq t2i idx text se hid hs
    rw [resolveEnglish, hid]
    show (match seq.get? idx with
      | some se2 => Except.ok se2.text
      | none => Except.ok "") = Except.ok se.text
    rw [hs]
  · rfl

/-- Witness for claim C7's general part: with no identifiers the run at
position 0 resolves to the default run `Hello` at position 0. -/
theorem claim_C7_positional_witness :
    resolveEnglish [] [⟨none, "Hello", "hello"⟩] [] 0 "Hallo" =
      Except.ok "Hello" :=
  claim_C7_positional.1 [] [⟨none, "Hello", "hello"⟩] [] 0 "Hallo"
    ⟨none, "Hello", "hello"⟩ rfl rfl

/-- Claim C8: the identifier-to-default-text map is *not* scoped to one
switch group.  Once the key `default_tspans_by_id` exists (here seeded by a
default phrase with that literal text), the map is stored inside
`translations["new"]`, is returned to the caller as part of the phrase
index, and an identifier collected in switch one (`X -> Hello`) is
consulted to resolve switch two's translated run `X-fr`. -/
theorem claim_C8_global_map :
    extract (SvgInput.parsed docC8) true =
      ExtractOutcome.ok ⟨some [("default_tspans_by_id", [("X", "Hello")]),
        ("hello", [("fr", "Bonjour")])], []⟩ := rfl

/-- Claim C9 counterexample: with case-insensitive mode disabled, switch
two resolves the default phrase `HELLO`, which is not an index key, and the
unconditional lowercase fallback of line 132 stores the translation under
the case-folded key `hello` — refuting the claim that no case-folded
key-lookup fallback happens when the mode is off. -/
theorem claim_C9_counterexample :
    extract (SvgInput.parsed docC9) false =
      ExtractOutcome.ok ⟨some [("default_tspans_by_id", [("fr", "HELLO")]),
        ("hello", [("de", "Target")])], []⟩ ∧
    dcontains [("default_tspans_by_id", [("fr", "HELLO")]),
        ("hello", [("de", "Target")])] "HELLO" = false :=
  ⟨rfl, rfl⟩

/-- Claim C9 (amended): with case-insensitive mode disabled, seeding uses
the trimmed text verbatim and every key of a returned phrase index is the
trimmed form of one of the document's default text contents; the stored
translation value is the trimmed, case-preserving text in every mode.  The
store key, however, falls back to the lowercased resolved phrase in every
mode — the fallback is not disabled with the mode. -/
theorem claim_C9_amended :
    (∀ t, seedKey false t = pyStrip t) ∧
    (∀ t, normalize_text t false = pyStrip t) ∧
    (∀ (sws : List Switch) (r : ExtractResult) (n : Index) (k : String),
      extract (SvgInput.parsed sws) false = ExtractOutcome.ok r →
      r.new = some n → dcontains n k = true →
      ∃ sw ∈ sws, ∃ e ∈ sw.texts, truthy e.systemLanguage = false ∧
        ∃ t ∈ elemDefaultContents e, k = pyStrip t) ∧
    (∀ (new : Index) (english : String),
      storeKey new english = english ∨
        storeKey new english = pyLower english) := by
  refine ⟨fun t => rfl, fun t => rfl, ?_, ?_⟩
  · intro sws r n k h hn hk
    have hks := extract_keys false sws r n k h hn hk
    rw [docSeedKeys] at hks
    rw [List.mem_flatten] at hks
    obtain ⟨l, hl, hkl⟩ := hks
    rw [List.mem_map] at hl
    obtain ⟨sw, hsw, rfl⟩ := hl
    rw [switchSeedKeys, List.mem_flatten] at hkl
    obtain ⟨l2, hl2, hkl2⟩ := hkl
    rw [List.mem_map] at hl2
    obtain ⟨e, he, rfl⟩ := hl2
    by_cases hsys : truthy e.systemLanguage
    · rw [elemSeedKeys, if_pos hsys] at hkl2
      cases hkl2
    · rw [elemSeedKeys, if_neg hsys] at hkl2
      rw [List.mem_map] at hkl2
      obtain ⟨t, ht, rfl⟩ := hkl2
      exact ⟨sw, hsw, e, he, Bool.eq_false_iff.mpr hsys, t, ht, rfl⟩
  · intro new english
    rw [storeKey]
    by_cases h : dcontains new english
    · rw [if_pos h]; exact Or.inl rfl
    · rw [if_neg h]; exact Or.inr rfl

/-- Witness for claim C9 (amended) at `docC9`: the key `hello` of the
returned index is the trimmed text of a default element of the document. -/
theorem claim_C9_amended_witness :
    ∃ sw ∈ docC9, ∃ e ∈ sw.texts, truthy e.systemLanguage = false ∧
      ∃ t ∈ elemDefaultContents e, "hello" = pyStrip t :=
  claim_C9_amended.2.2.1 docC9
    ⟨some [("default_tspans_by_id", [("fr", "HELLO")]),
      ("hello", [("de", "Target")])], []⟩
    [("default_tspans_by_id", [("fr", "HELLO")]),
      ("hello", [("de", "Target")])] "hello" rfl rfl rfl

/-- Claim C10 counterexample: in `docC10` the default run sequence has
length two (its run at position 1 is a whitespace-only tspan whose stripped
text is empty), and the translated element's empty sub-run at position 1 is
within range — yet nothing is stored for it: the entry of key `""` stays
empty, because line 129 skips any run whose resolved phrase is falsy. -/
theorem claim_C10_counterexample :
    processDefaults true [] []
        [⟨none, some "default_tspans_by_id", []⟩,
         ⟨none, none, [⟨some "a", some "  "⟩]⟩,
         ⟨some "de", none, [⟨none, some "x"⟩, ⟨none, none⟩]⟩] =
      Except.ok ([("default_tspans_by_id", [("a", "")]), ("", [])],
        [⟨none, "default_tspans_by_id", "default_tspans_by_id"⟩,
         ⟨some "a", "", ""⟩]) ∧
    extract (SvgInput.parsed docC10) true =
      ExtractOutcome.ok ⟨some [("default_tspans_by_id", [("a", ""), ("de", "x")]),
        ("", [])], []⟩ :=
  ⟨rfl, rfl⟩

/-- Claim C10 (amended): an empty or absent translated sub-run still
occupies its position (`transContents` keeps one slot per tspan), while
empty default sub-runs are excluded from the default run sequence; when the
position is within range *and the positionally matched default run's text
is non-empty*, the empty string is stored as that language's translation,
possibly overwriting a non-empty one (last conjunct); a matched default run
with empty text is skipped instead. -/
theorem claim_C10_amended :
    (∀ e : TextElem, e.tspans.isEmpty = false →
      (transContents e).length = e.tspans.length) ∧
    (∀ (ci : Bool) (ts : List Tspan),
      (defaultSeqFromTspans ci ts).length =
        (ts.filter (fun t => truthy t.text)).length) ∧
    (∀ ts : List Tspan, dget? (transTspansToId ts) "" = none) ∧
    (∀ (new : Index) (seq : List SeqEntry) (lang : String) (t2i : Entry)
        (idx : Nat) (rest : List String) (se : SeqEntry),
      dget? t2i "" = none → seq.get? idx = some se → se.text ≠ "" →
      processRuns seq lang t2i new idx ("" :: rest) =
        processRuns seq lang t2i
          (storeTranslation new lang se.text "") (idx + 1) rest) ∧
    extract (SvgInput.parsed docC10over) true =
      ExtractOutcome.ok ⟨some [("hello", [("de", "")])], []⟩ := by
  refine ⟨?_, ?_, ?_, ?_, rfl⟩
  · intro e h
    rw [transContents, if_neg (by simp [h])]
    exact List.length_map _ _
  · intro ci ts
    rw [defaultSeqFromTspans]
    exact List.length_map _ _
  · intro ts
    rw [transTspansToId]
    refine dget?_foldl_dinsert_empty _ [] (fun t ht => ?_) rfl
    have hp := List.of_mem_filter ht
    simp only [Bool.and_eq_true, bne_iff_ne, ne_eq] at hp
    exact hp.1.2
  · intro new seq lang t2i idx rest se h0 hs ht
    have hb : baseIdOf t2i "" = "" := by
      rw [baseIdOf]
      have hps : pyStrip "" = "" := rfl
      rw [hps, h0]
    have hid : idResolve new t2i "" = Except.ok "" := by
      rw [idResolve, hb]
      rfl
    have hr : resolveEnglish new seq t2i idx "" = Except.ok se.text := by
      rw [resolveEnglish, hid]
      show (match seq.get? idx with
        | some se2 => Except.ok se2.text
        | none => Except.ok "") = Except.ok se.text
      rw [hs]
    rw [processRuns, hr]
    show processRuns seq lang t2i
        (if se.text != "" then
          storeTranslation new lang se.text (normalize_text "" false)
        else new) (idx + 1) rest = _
    rw [if_pos (by simpa [bne_iff_ne] using ht)]
    rfl

/-- Witness for claim C10 (amended): the empty run at position 0 stores the
empty string for the positionally matched default run `Hello`. -/
theorem claim_C10_amended_witness :
    processRuns [⟨none, "Hello", "hello"⟩] "de" [] [("hello", [])] 0 [""] =
      processRuns [⟨none, "Hello", "hello"⟩] "de" []
        (storeTranslation [("hello", [])] "de" "Hello" "") 1 [] :=
  claim_C10_amended.2.2.2.1 [("hello", [])] [⟨none, "Hello", "hello"⟩] "de" []
    0 [] ⟨none, "Hello", "hello"⟩ rfl rfl (by decide)

end SvgExtract
